import Mathlib

/-!
Verification of the voxel space-carving pipeline (src/main.py).

The embedding translates the source functions over an abstract linear ordered
field `α` with a floor structure (instantiated at `ℚ` for concrete evaluation
and at `ℝ` where the source takes square or cube roots):

* `Voxel`            - one row of the `(N, 3)` voxel array;
* `Camera`           - the per-view record (`camera.py` is not part of `src/`;
                       its fields are modelled from the spec: projection `P`,
                       intrinsics `K`, rotation `R`, position `T`, a viewing
                       direction, and the silhouette array with its shape);
* `carve`            - `carve(voxels, camera)` of src/main.py lines 130-152;
* `arange`/`gridOf`/`formInitialVoxels` - `form_initial_voxels`, lines 42-56;
* `getVoxelBounds`   - `get_voxel_bounds`, lines 85-114.

Machine floats are idealised as exact field arithmetic.  The only genuinely
float-specific behaviour is perspective division by a zero depth, which in
numpy produces non-finite coordinates whose `int32` cast always fails the
in-frame bounds check; the embedding makes that rejection explicit
(`keep` returns `false` when the homogeneous depth is zero).
-/

/-- One voxel: a row `[x, y, z]` of the `(N, 3)` float array used by the
source. -/
structure Voxel (α : Type) where
  x : α
  y : α
  z : α
deriving DecidableEq, Repr

/-- Modelled from the spec: the per-camera record exposed by `camera.py`
(which is not under `src/`).  `P` is the 3x4 projection matrix, `K` the 3x3
intrinsics, `R` the 3x3 rotation, `T` the world-space camera position (used
both as the translation column in `carve`'s dead local projection and as the
camera position in `get_voxel_bounds`), `direction` the unit viewing
direction returned by `get_camera_direction`, and `silhouette` the binary
H x W array (`silH` rows, `silW` columns, entry `silhouette row col`). -/
structure Camera (α : Type) where
  P : Fin 3 → Fin 4 → α
  K : Fin 3 → Fin 3 → α
  R : Fin 3 → Fin 3 → α
  T : Fin 3 → α
  direction : Fin 3 → α
  silhouette : ℕ → ℕ → α
  silH : ℕ
  silW : ℕ

variable {α : Type} [LinearOrderedField α] [FloorRing α]

/-- The helper `diff` of src/main.py line 10: difference of the second and
first entry of a two-element vector, here a pair. -/
def diff (p : α × α) : α := p.2 - p.1

/-- Conversion of a real coordinate to an integer pixel index the way a
numpy `int32` cast does it: truncation toward zero. -/
def truncInt (a : α) : ℤ := if 0 ≤ a then ⌊a⌋ else ⌈a⌉

/-- The homogeneous image projection `camera.P @ [x, y, z, 1]` computed at
src/main.py line 144. -/
def projHom (c : Camera α) (v : Voxel α) : α × α × α :=
  (c.P 0 0 * v.x + c.P 0 1 * v.y + c.P 0 2 * v.z + c.P 0 3,
   c.P 1 0 * v.x + c.P 1 1 * v.y + c.P 1 2 * v.z + c.P 1 3,
   c.P 2 0 * v.x + c.P 2 1 * v.y + c.P 2 2 * v.z + c.P 2 3)

/-- The integer pixel `(col, row)` obtained at src/main.py line 145:
perspective division by the third homogeneous coordinate followed by the
`int32` cast (truncation toward zero). -/
def pixelOf (c : Camera α) (v : Voxel α) : ℤ × ℤ :=
  let pr := projHom c v
  (truncInt (pr.1 / pr.2.2), truncInt (pr.2.1 / pr.2.2))

/-- The retention predicate of src/main.py lines 147-149: the projected pixel
must satisfy `0 ≤ col < silhouette.shape[1]`, `0 ≤ row < silhouette.shape[0]`
and `silhouette[row, col] > 0`.  A zero homogeneous depth produces non-finite
coordinates in the source whose `int32` cast never passes the bounds check,
so it is rejected explicitly here. -/
def keep (c : Camera α) (v : Voxel α) : Bool :=
  let pr := projHom c v
  if pr.2.2 = 0 then false
  else
    let px := pixelOf c v
    decide (0 ≤ px.1 ∧ px.1 < (c.silW : ℤ) ∧ 0 ≤ px.2 ∧ px.2 < (c.silH : ℤ) ∧
      0 < c.silhouette px.2.toNat px.1.toNat)

/-- The projection matrix assembled locally at src/main.py lines 136-140:
`P = K @ (Rmat @ Tmat)[:3]` with `Tmat = I₄` carrying `T` in its last column
and `Rmat = I₄` carrying `R` in its upper-left block.  The source computes it
and never uses it (the loop uses `camera.P`). -/
def projFromKRT (c : Camera α) : Fin 3 → Fin 4 → α := fun i j =>
  let M : Fin 3 → Fin 4 → α := fun r s =>
    if h : (s : ℕ) < 3 then c.R r ⟨s, h⟩ else ∑ k : Fin 3, c.R r k * c.T k
  ∑ k : Fin 3, c.K i k * M k j

/-- The `carve` function of src/main.py lines 130-152: keep exactly the
voxels whose projected pixel lies inside the silhouette.  The unused local
projection matrix of lines 136-140 is mirrored by the dead `let`. -/
def carve (voxels : List (Voxel α)) (c : Camera α) : List (Voxel α) :=
  let _P := projFromKRT c
  voxels.filter (fun v => keep c v)

/-- The numpy `arange(start, stop, step)` sequence: `⌈(stop - start)/step⌉`
values `start + i * step`, for a positive step.  A zero step is an error in
numpy (`arange` raises before producing anything); the embedding totalises
that error path to the empty list, and no theorem below relies on it: every
concrete input fed through `arange` uses a nonzero step. -/
def arange (start stop step : α) : List α :=
  (List.range (⌈(stop - start) / step⌉).toNat).map fun i => start + (i : α) * step

/-- The triple nested grid loop of src/main.py lines 50-54: the Cartesian
product of the three `arange` axis sequences, x outer, y middle, z inner. -/
def gridOf (xlim ylim zlim : α × α) (step : α) : List (Voxel α) :=
  (arange xlim.1 xlim.2 step).flatMap fun xv =>
    (arange ylim.1 ylim.2 step).flatMap fun yv =>
      (arange zlim.1 zlim.2 step).map fun zv => ⟨xv, yv, zv⟩

/-- The sign-preserving real cube root `np.cbrt`. -/
noncomputable def cbrt (a : ℝ) : ℝ :=
  if 0 ≤ a then a ^ ((1 : ℝ) / 3) else -((-a) ^ ((1 : ℝ) / 3))

/-- The function `form_initial_voxels` of src/main.py lines 42-56: voxel edge
length from the prism volume and the desired count, then the dense lattice. -/
noncomputable def formInitialVoxels (xlim ylim zlim : ℝ × ℝ) (numVoxels : ℝ) :
    List (Voxel ℝ) × ℝ :=
  let voxelGridVol := (xlim.2 - xlim.1) * (ylim.2 - ylim.1) * (zlim.2 - zlim.1)
  let voxelVol := voxelGridVol / numVoxels
  let voxelSideLen := cbrt voxelVol
  (gridOf xlim ylim zlim voxelSideLen, voxelSideLen)

/-- The function `get_voxel_bounds` of src/main.py lines 85-114, returning
`none` where the source raises: on an empty camera list (`np.vstack` of
nothing) and, in the refinement branch, when the coarse carve leaves no
survivor (indexing column 0 of an empty array). -/
noncomputable def getVoxelBounds (cameras : List (Camera ℝ))
    (estimateBetterBounds : Bool) (numVoxels : ℝ) :
    Option ((ℝ × ℝ) × (ℝ × ℝ) × (ℝ × ℝ)) :=
  match cameras with
  | [] => none
  | c0 :: rest =>
    let xlim0 : ℝ × ℝ :=
      ((rest.map fun c => c.T 0).foldl min (c0.T 0),
       (rest.map fun c => c.T 0).foldl max (c0.T 0))
    let ylim0 : ℝ × ℝ :=
      ((rest.map fun c => c.T 1).foldl min (c0.T 1),
       (rest.map fun c => c.T 1).foldl max (c0.T 1))
    let zlim0 : ℝ × ℝ :=
      ((rest.map fun c => c.T 2).foldl min (c0.T 2),
       (rest.map fun c => c.T 2).foldl max (c0.T 2))
    let cameraRange := 0.6 * Real.sqrt (diff xlim0 ^ 2 + diff ylim0 ^ 2)
    let zlim := (c0 :: rest).foldl
      (fun (zp : ℝ × ℝ) c =>
        (min zp.1 (c.T 2 - cameraRange * c.direction 2),
         max zp.2 (c.T 2 - cameraRange * c.direction 2)))
      zlim0
    let xlim := (xlim0.1 + diff xlim0 / 4 * 1, xlim0.2 + diff xlim0 / 4 * (-1))
    let ylim := (ylim0.1 + diff ylim0 / 4 * 1, ylim0.2 + diff ylim0 / 4 * (-1))
    if estimateBetterBounds then
      let fv := formInitialVoxels xlim ylim zlim numVoxels
      let survivors := (c0 :: rest).foldl carve fv.1
      match survivors with
      | [] => none
      | s0 :: srest =>
        some (((srest.map Voxel.x).foldl min s0.x - fv.2,
               (srest.map Voxel.x).foldl max s0.x + fv.2),
              ((srest.map Voxel.y).foldl min s0.y - fv.2,
               (srest.map Voxel.y).foldl max s0.y + fv.2),
              ((srest.map Voxel.z).foldl min s0.z - fv.2,
               (srest.map Voxel.z).foldl max s0.z + fv.2))
    else
      some (xlim, ylim, zlim)

/-- Identity-like 3x4 projection over `ℚ`: `[[1,0,0,0],[0,1,0,0],[0,0,1,0]]`,
so a voxel `(x, y, z)` projects homogeneously to `(x, y, z)`. -/
def pId : Fin 3 → Fin 4 → ℚ := fun i j => if (i : ℕ) = (j : ℕ) then 1 else 0

/-- Test camera: identity-like projection, all-ones 4x4 silhouette. -/
def camId : Camera ℚ :=
  { P := pId,
    K := fun _ _ => 0, R := fun _ _ => 0, T := fun _ => 0,
    direction := fun _ => 0,
    silhouette := fun _ _ => 1, silH := 4, silW := 4 }

/-- Test camera: same projection and silhouette as `camId` but different
intrinsics, rotation, position and direction. -/
def camId2 : Camera ℚ :=
  { P := pId,
    K := fun _ _ => 7, R := fun _ _ => 8, T := fun _ => 9,
    direction := fun _ => 10,
    silhouette := fun _ _ => 1, silH := 4, silW := 4 }

/-- Negated identity-like 3x4 projection over `ℚ`:
`[[-1,0,0,0],[0,-1,0,0],[0,0,-1,0]]`. -/
def pNeg : Fin 3 → Fin 4 → ℚ := fun i j => if (i : ℕ) = (j : ℕ) then -1 else 0

/-- Test camera whose projection negates all three homogeneous coordinates,
with an all-ones 3x3 silhouette. -/
def camNeg : Camera ℚ :=
  { P := pNeg,
    K := fun _ _ => 0, R := fun _ _ => 0, T := fun _ => 0,
    direction := fun _ => 0,
    silhouette := fun _ _ => 1, silH := 3, silW := 3 }

/-- Constant 3x4 projection over `ℚ` sending every voxel to the homogeneous
point `(-1, 1, 2)`: only the last column is nonzero. -/
def pFrac : Fin 3 → Fin 4 → ℚ := fun i j =>
  if (j : ℕ) = 3 then (if (i : ℕ) = 0 then -1 else if (i : ℕ) = 1 then 1 else 2) else 0

/-- Test camera with constant projection `(-1, 1, 2)` and an all-ones 1x1
silhouette. -/
def camFrac : Camera ℚ :=
  { P := pFrac,
    K := fun _ _ => 0, R := fun _ _ => 0, T := fun _ => 0,
    direction := fun _ => 0,
    silhouette := fun _ _ => 1, silH := 1, silW := 1 }

/-- Test camera over `ℝ` at position `(0,0,0)` whose silhouette is
identically zero, so every voxel it sees is carved away. -/
def camBugA : Camera ℝ :=
  { P := fun i j => if (i : ℕ) = (j : ℕ) then 1 else 0,
    K := fun _ _ => 0, R := fun _ _ => 0, T := fun _ => 0,
    direction := fun _ => 0,
    silhouette := fun _ _ => 0, silH := 1, silW := 1 }

/-- Test camera over `ℝ` at position `(2,2,2)` whose silhouette is
identically zero, so every voxel it sees is carved away. -/
def camBugB : Camera ℝ :=
  { P := fun i j => if (i : ℕ) = (j : ℕ) then 1 else 0,
    K := fun _ _ => 0, R := fun _ _ => 0, T := fun _ => 2,
    direction := fun _ => 0,
    silhouette := fun _ _ => 0, silH := 1, silW := 1 }

/-- Test camera over `ℝ` positioned at `(1, 2, 3)` looking along no
particular direction (zero direction vector). -/
def camPos : Camera ℝ :=
  { P := fun _ _ => 0,
    K := fun _ _ => 0, R := fun _ _ => 0,
    T := fun i => if (i : ℕ) = 0 then 1 else if (i : ℕ) = 1 then 2 else 3,
    direction := fun _ => 0,
    silhouette := fun _ _ => 0, silH := 1, silW := 1 }

theorem finq40 : ((0 : Fin 4) : ℕ) = 0 := rfl

theorem finq41 : ((1 : Fin 4) : ℕ) = 1 := rfl

theorem finq42 : ((2 : Fin 4) : ℕ) = 2 := rfl

theorem finq43 : ((3 : Fin 4) : ℕ) = 3 := rfl

theorem finq30 : ((0 : Fin 3) : ℕ) = 0 := rfl

theorem finq31 : ((1 : Fin 3) : ℕ) = 1 := rfl

theorem finq32 : ((2 : Fin 3) : ℕ) = 2 := rfl

/-- Unfolding characterisation of the retention predicate `keep`. -/
theorem keep_eq_true_iff {α : Type} [LinearOrderedField α] [FloorRing α]
    (c : Camera α) (v : Voxel α) :
    keep c v = true ↔
      (projHom c v).2.2 ≠ 0 ∧ 0 ≤ (pixelOf c v).1 ∧ (pixelOf c v).1 < (c.silW : ℤ) ∧
        0 ≤ (pixelOf c v).2 ∧ (pixelOf c v).2 < (c.silH : ℤ) ∧
        0 < c.silhouette (pixelOf c v).2.toNat (pixelOf c v).1.toNat := by
  unfold keep
  by_cases h : (projHom c v).2.2 = 0
  · simp [h]
  · simp [h, and_assoc]

/-- Membership in a carve result decomposes into membership in the input and
the retention predicate. -/
theorem mem_carve_iff {α : Type} [LinearOrderedField α] [FloorRing α]
    (V : List (Voxel α)) (c : Camera α) (v : Voxel α) :
    v ∈ carve V c ↔ v ∈ V ∧ keep c v = true := by
  simp [carve, List.mem_filter]

/-- A camera with a nowhere-positive silhouette carves every voxel away. -/
theorem carve_eq_nil_of_sil_nonpos {α : Type} [LinearOrderedField α] [FloorRing α]
    (c : Camera α) (h : ∀ r k, c.silhouette r k ≤ 0) (V : List (Voxel α)) :
    carve V c = [] := by
  simp only [carve]
  refine List.filter_eq_nil_iff.mpr fun v _ => ?_
  intro hkeep
  have hs := ((keep_eq_true_iff c v).mp hkeep).2.2.2.2.2
  exact absurd hs (not_lt.mpr (h _ _))

/-- Folding `min` over a list starting from `a` returns the least element of
`a` and the list. -/
theorem foldl_min_eq {β : Type} [LinearOrder β] (l : List β) :
    ∀ a b : β, b ≤ a → (∀ x ∈ l, b ≤ x) → (b = a ∨ b ∈ l) → l.foldl min a = b := by
  induction l with
  | nil =>
    intro a b hba _ hmem
    rcases hmem with h | h
    · exact h.symm
    · cases h
  | cons x t ih =>
    intro a b hba hall hmem
    have hbx : b ≤ x := hall x (List.mem_cons_self x t)
    show List.foldl min (min a x) t = b
    refine ih (min a x) b (le_min hba hbx)
      (fun y hy => hall y (List.mem_cons_of_mem x hy)) ?_
    rcases hmem with h | h
    · subst h
      exact Or.inl (min_eq_left hbx).symm
    · rcases List.mem_cons.mp h with h1 | h1
      · subst h1
        exact Or.inl (min_eq_right hba).symm
      · exact Or.inr h1

/-- Folding `max` over a list starting from `a` returns the greatest element
of `a` and the list. -/
theorem foldl_max_eq {β : Type} [LinearOrder β] (l : List β) :
    ∀ a b : β, a ≤ b → (∀ x ∈ l, x ≤ b) → (b = a ∨ b ∈ l) → l.foldl max a = b := by
  induction l with
  | nil =>
    intro a b hab _ hmem
    rcases hmem with h | h
    · exact h.symm
    · cases h
  | cons x t ih =>
    intro a b hab hall hmem
    have hxb : x ≤ b := hall x (List.mem_cons_self x t)
    show List.foldl max (max a x) t = b
    refine ih (max a x) b (max_le hab hxb)
      (fun y hy => hall y (List.mem_cons_of_mem x hy)) ?_
    rcases hmem with h | h
    · subst h
      exact Or.inl (max_eq_left hxb).symm
    · rcases List.mem_cons.mp h with h1 | h1
      · subst h1
        exact Or.inl (max_eq_right hab).symm
      · exact Or.inr h1

/-- Claim C1: for every voxel collection `V` and camera `c`, `carve V c` is a
subset of `V`: every output voxel is a member of the input, and the output is
even a sublist of the input, so no new points and no new duplicates are
introduced (in particular a duplicate-free input yields a duplicate-free
output). -/
theorem carve_subset_claim {α : Type} [LinearOrderedField α] [FloorRing α]
    (V : List (Voxel α)) (c : Camera α) :
    (carve V c).Sublist V ∧ (∀ v ∈ carve V c, v ∈ V) ∧
      (V.Nodup → (carve V c).Nodup) := by
  have hs : (carve V c).Sublist V := List.filter_sublist V
  exact ⟨hs, fun v hv => ((mem_carve_iff V c v).mp hv).1, fun h => h.sublist hs⟩

/-- Witness for C1 at a concrete input: the kept voxel of the carve output is
a member of the input list, and the carve of a duplicate-free list is
duplicate-free. -/
theorem carve_subset_claim_witness :
    (⟨0, 0, 1⟩ : Voxel ℚ) ∈ [(⟨0, 0, 1⟩ : Voxel ℚ), ⟨9, 9, 1⟩] ∧
      (carve [(⟨0, 0, 1⟩ : Voxel ℚ), ⟨9, 9, 1⟩] camId).Nodup := by
  have h := carve_subset_claim [(⟨0, 0, 1⟩ : Voxel ℚ), ⟨9, 9, 1⟩] camId
  exact ⟨h.2.1 ⟨0, 0, 1⟩ ((mem_carve_iff _ _ _).mpr ⟨by decide, by
    norm_num [keep, pixelOf, projHom, camId, pId, truncInt,
      finq40, finq41, finq42, finq43]⟩), h.2.2 (by decide)⟩

/-- Claim C2: carving against camera `A` then `B` yields the same surviving
collection as carving against `B` then `A` (the result is proved equal even
as a list, hence certainly as a set). -/
theorem carve_commutes_claim {α : Type} [LinearOrderedField α] [FloorRing α]
    (V : List (Voxel α)) (cA cB : Camera α) :
    carve (carve V cA) cB = carve (carve V cB) cA := by
  simp only [carve]
  rw [List.filter_filter, List.filter_filter]
  congr 1
  funext v
  rw [Bool.and_comm]

/-- Claim C8: carving twice against the same camera changes nothing after
the first application. -/
theorem carve_idempotent_claim {α : Type} [LinearOrderedField α] [FloorRing α]
    (V : List (Voxel α)) (c : Camera α) :
    carve (carve V c) c = carve V c := by
  simp only [carve]
  rw [List.filter_filter]
  congr 1
  funext v
  rw [Bool.and_self]

/-- Claim C10: the carve result depends only on the camera's projection
matrix `P` and its silhouette array (entries and shape); the intrinsics `K`,
rotation `R`, position `T` and direction never influence it — the projection
matrix assembled locally from `K`, `R`, `T` in the source is dead code. -/
theorem carve_depends_only_on_P_silhouette_claim {α : Type}
    [LinearOrderedField α] [FloorRing α]
    (V : List (Voxel α)) (cA cB : Camera α)
    (hP : cA.P = cB.P) (hsil : cA.silhouette = cB.silhouette)
    (hH : cA.silH = cB.silH) (hW : cA.silW = cB.silW) :
    carve V cA = carve V cB := by
  simp only [carve]
  congr 1
  funext v
  simp only [keep, pixelOf, projHom, hP, hsil, hH, hW]

/-- Witness for C10 at a concrete input: `camId` and `camId2` share `P` and
silhouette but differ in `K`, `R`, `T` and direction, and carve the same. -/
theorem carve_depends_only_on_P_silhouette_claim_witness :
    carve [(⟨0, 0, 1⟩ : Voxel ℚ), ⟨-1, 0, 1⟩] camId =
      carve [(⟨0, 0, 1⟩ : Voxel ℚ), ⟨-1, 0, 1⟩] camId2 :=
  carve_depends_only_on_P_silhouette_claim _ camId camId2 rfl rfl rfl rfl

/-- Counterexample to claim C3 as stated: under `camNeg` the voxel `(1,1,1)`
has homogeneous projection `(-1,-1,-1)` with negative depth, yet perspective
division flips both signs, the pixel `(1,1)` lies inside the 3x3 all-ones
silhouette, and the voxel is retained — a negative-depth voxel is not always
discarded. -/
theorem carve_negative_depth_cex :
    (projHom camNeg ⟨1, 1, 1⟩).2.2 < 0 ∧
      (⟨1, 1, 1⟩ : Voxel ℚ) ∈ carve [⟨1, 1, 1⟩] camNeg := by
  constructor
  · norm_num [projHom, camNeg, pNeg, finq40, finq41, finq42, finq43]
  · have h : keep camNeg ⟨1, 1, 1⟩ = true := by
      norm_num [keep, pixelOf, projHom, camNeg, pNeg, truncInt,
        finq40, finq41, finq42, finq43]
    simp [carve, List.filter, h]

/-- Claim C3 amended: every voxel whose truncated projected pixel lies
outside the image frame is discarded, with no special case beyond the bounds
check; a negative-depth voxel is discarded only when its perspective-divided
pixel falls outside the frame (the sign flip of perspective division can land
a negative-depth voxel inside the frame, where it is retained). -/
theorem carve_out_of_frame_claim {α : Type} [LinearOrderedField α] [FloorRing α]
    (V : List (Voxel α)) (c : Camera α) (v : Voxel α)
    (h : (pixelOf c v).1 < 0 ∨ (c.silW : ℤ) ≤ (pixelOf c v).1 ∨
      (pixelOf c v).2 < 0 ∨ (c.silH : ℤ) ≤ (pixelOf c v).2) :
    v ∉ carve V c := by
  intro hv
  have hk := ((mem_carve_iff V c v).mp hv).2
  have hc := (keep_eq_true_iff c v).mp hk
  rcases h with h | h | h | h
  · exact absurd hc.2.1 (not_le.mpr h)
  · exact absurd hc.2.2.1 (not_lt.mpr h)
  · exact absurd hc.2.2.2.1 (not_le.mpr h)
  · exact absurd hc.2.2.2.2.1 (not_lt.mpr h)

/-- Witness for the amended C3 at a concrete input: under `camId` the voxel
`(5,5,1)` projects to the out-of-frame pixel `(5,5)` (width 4) and is
discarded. -/
theorem carve_out_of_frame_claim_witness :
    ((camId.silW : ℤ) ≤ (pixelOf camId ⟨5, 5, 1⟩).1) ∧
      (⟨5, 5, 1⟩ : Voxel ℚ) ∉ carve [⟨5, 5, 1⟩] camId := by
  have hpx : (camId.silW : ℤ) ≤ (pixelOf camId ⟨5, 5, 1⟩).1 := by
    norm_num [pixelOf, projHom, camId, pId, truncInt, finq40, finq41, finq42, finq43]
  exact ⟨hpx, carve_out_of_frame_claim _ camId ⟨5, 5, 1⟩ (Or.inr (Or.inl hpx))⟩

/-- Claim C5: a voxel whose perspective-divided projection is exactly pixel
`(0,0)` is retained when the silhouette value there is truthy (given a
nonzero depth and a nonempty silhouette), and a voxel projecting to column
`-1` or to column `width`, at any row, is always discarded. -/
theorem carve_boundary_claim {α : Type} [LinearOrderedField α] [FloorRing α]
    (V : List (Voxel α)) (c : Camera α) (v : Voxel α) :
    ((projHom c v).2.2 ≠ 0 → pixelOf c v = (0, 0) → 0 < c.silW → 0 < c.silH →
        0 < c.silhouette 0 0 → v ∈ V → v ∈ carve V c) ∧
      ((pixelOf c v).1 = -1 → v ∉ carve V c) ∧
      ((pixelOf c v).1 = (c.silW : ℤ) → v ∉ carve V c) := by
  refine ⟨?_, ?_, ?_⟩
  · intro hw hpx hW hH hs hv
    refine (mem_carve_iff V c v).mpr ⟨hv, (keep_eq_true_iff c v).mpr ?_⟩
    rw [hpx]
    refine ⟨hw, le_refl 0, ?_, le_refl 0, ?_, ?_⟩
    · show (0 : ℤ) < (c.silW : ℤ)
      exact_mod_cast hW
    · show (0 : ℤ) < (c.silH : ℤ)
      exact_mod_cast hH
    · simpa using hs
  · intro hpx hv
    have hc := (keep_eq_true_iff c v).mp ((mem_carve_iff V c v).mp hv).2
    rw [hpx] at hc
    exact absurd hc.2.1 (by norm_num)
  · intro hpx hv
    have hc := (keep_eq_true_iff c v).mp ((mem_carve_iff V c v).mp hv).2
    rw [hpx] at hc
    exact absurd hc.2.2.1 (lt_irrefl _)

/-- Witness for C5 at concrete inputs under `camId` (all-ones 4x4
silhouette): the voxel `(0,0,1)` projects exactly to pixel `(0,0)` and is
retained; the voxel `(-1,2,1)` projects to column `-1` and is discarded; the
voxel `(4,2,1)` projects to column `4 = width` and is discarded. -/
theorem carve_boundary_claim_witness :
    (⟨0, 0, 1⟩ : Voxel ℚ) ∈ carve [⟨0, 0, 1⟩] camId ∧
      (⟨-1, 2, 1⟩ : Voxel ℚ) ∉ carve [⟨-1, 2, 1⟩] camId ∧
      (⟨4, 2, 1⟩ : Voxel ℚ) ∉ carve [⟨4, 2, 1⟩] camId := by
  refine ⟨(carve_boundary_claim _ camId _).1 ?_ ?_ ?_ ?_ ?_ ?_,
    (carve_boundary_claim _ camId _).2.1 ?_,
    (carve_boundary_claim _ camId _).2.2 ?_⟩
  · norm_num [projHom, camId, pId, finq40, finq41, finq42, finq43]
  · norm_num [pixelOf, projHom, camId, pId, truncInt, finq40, finq41, finq42, finq43,
      Prod.ext_iff]
  · norm_num [camId]
  · norm_num [camId]
  · norm_num [camId]
  · exact List.mem_singleton.mpr rfl
  · norm_num [pixelOf, projHom, camId, pId, truncInt, finq40, finq41, finq42, finq43,
      Int.ceil_neg, Int.ceil_one, Int.floor_one, Int.floor_neg]
  · norm_num [pixelOf, projHom, camId, pId, truncInt, finq40, finq41, finq42, finq43]

/-- Claim C9: truncation toward zero maps a perspective-divided column (or
row) coordinate strictly between `-1` and `0` to pixel index `0`, so such a
voxel is not treated as out of frame: it is retained whenever the remaining
index is in bounds and the silhouette at that pixel is truthy. -/
theorem carve_truncation_toward_zero_claim {α : Type} [LinearOrderedField α]
    [FloorRing α] (V : List (Voxel α)) (c : Camera α) (v : Voxel α) :
    (-1 < (projHom c v).1 / (projHom c v).2.2 →
      (projHom c v).1 / (projHom c v).2.2 < 0 →
      (pixelOf c v).1 = 0 ∧
        (0 ≤ (pixelOf c v).2 → (pixelOf c v).2 < (c.silH : ℤ) → 0 < c.silW →
          0 < c.silhouette (pixelOf c v).2.toNat 0 → v ∈ V → v ∈ carve V c)) ∧
    (-1 < (projHom c v).2.1 / (projHom c v).2.2 →
      (projHom c v).2.1 / (projHom c v).2.2 < 0 →
      (pixelOf c v).2 = 0 ∧
        (0 ≤ (pixelOf c v).1 → (pixelOf c v).1 < (c.silW : ℤ) → 0 < c.silH →
          0 < c.silhouette 0 (pixelOf c v).1.toNat → v ∈ V → v ∈ carve V c)) := by
  constructor
  · intro h1 h2
    have hw : (projHom c v).2.2 ≠ 0 := by
      intro h0
      rw [h0, div_zero] at h2
      exact absurd h2 (lt_irrefl 0)
    have hcol : (pixelOf c v).1 = 0 := by
      have hnn : ¬ 0 ≤ (projHom c v).1 / (projHom c v).2.2 := not_le.mpr h2
      show truncInt ((projHom c v).1 / (projHom c v).2.2) = 0
      rw [truncInt, if_neg hnn]
      exact Int.ceil_eq_zero_iff.mpr ⟨h1, le_of_lt h2⟩
    refine ⟨hcol, fun hr1 hr2 hW hs hv => ?_⟩
    refine (mem_carve_iff V c v).mpr ⟨hv, (keep_eq_true_iff c v).mpr ?_⟩
    rw [hcol]
    exact ⟨hw, le_refl 0, by exact_mod_cast hW, hr1, hr2, by simpa using hs⟩
  · intro h1 h2
    have hw : (projHom c v).2.2 ≠ 0 := by
      intro h0
      rw [h0, div_zero] at h2
      exact absurd h2 (lt_irrefl 0)
    have hrow : (pixelOf c v).2 = 0 := by
      have hnn : ¬ 0 ≤ (projHom c v).2.1 / (projHom c v).2.2 := not_le.mpr h2
      show truncInt ((projHom c v).2.1 / (projHom c v).2.2) = 0
      rw [truncInt, if_neg hnn]
      exact Int.ceil_eq_zero_iff.mpr ⟨h1, le_of_lt h2⟩
    refine ⟨hrow, fun hc1 hc2 hH hs hv => ?_⟩
    refine (mem_carve_iff V c v).mpr ⟨hv, (keep_eq_true_iff c v).mpr ?_⟩
    rw [hrow]
    exact ⟨hw, hc1, hc2, le_refl 0, by exact_mod_cast hH, by simpa using hs⟩

/-- Witness for C9 at a concrete input: under `camFrac` every voxel projects
homogeneously to `(-1, 1, 2)`, so the divided column is `-1/2 ∈ (-1, 0)`;
the pixel column is `0`, the row `⌊1/2⌋ = 0` is in bounds, the 1x1 all-ones
silhouette is truthy, and the voxel is retained. -/
theorem carve_truncation_toward_zero_claim_witness :
    (-1 < (projHom camFrac ⟨0, 0, 0⟩).1 / (projHom camFrac ⟨0, 0, 0⟩).2.2) ∧
      (⟨0, 0, 0⟩ : Voxel ℚ) ∈ carve [⟨0, 0, 0⟩] camFrac := by
  have h := (carve_truncation_toward_zero_claim [(⟨0, 0, 0⟩ : Voxel ℚ)]
    camFrac ⟨0, 0, 0⟩).1
  refine ⟨?_, (h ?_ ?_).2 ?_ ?_ ?_ ?_ (List.mem_singleton.mpr rfl)⟩
  · norm_num [projHom, camFrac, pFrac, finq40, finq41, finq42, finq43, finq30, finq31, finq32]
  · norm_num [projHom, camFrac, pFrac, finq40, finq41, finq42, finq43, finq30, finq31, finq32]
  · norm_num [projHom, camFrac, pFrac, finq40, finq41, finq42, finq43, finq30, finq31, finq32]
  · norm_num [pixelOf, projHom, camFrac, pFrac, truncInt,
      finq40, finq41, finq42, finq43, finq30, finq31, finq32]
  · norm_num [pixelOf, projHom, camFrac, pFrac, truncInt,
      finq40, finq41, finq42, finq43, finq30, finq31, finq32, camFrac]
  · norm_num [camFrac]
  · norm_num [camFrac]

/-- Second component of `formInitialVoxels`: the voxel edge length. -/
theorem formInitialVoxels_snd (xl yl zl : ℝ × ℝ) (nv : ℝ) :
    (formInitialVoxels xl yl zl nv).2 =
      cbrt ((xl.2 - xl.1) * (yl.2 - yl.1) * (zl.2 - zl.1) / nv) := rfl

/-- First component of `formInitialVoxels`: the generated lattice. -/
theorem formInitialVoxels_fst (xl yl zl : ℝ × ℝ) (nv : ℝ) :
    (formInitialVoxels xl yl zl nv).1 =
      gridOf xl yl zl (cbrt ((xl.2 - xl.1) * (yl.2 - yl.1) * (zl.2 - zl.1) / nv)) := rfl

/-- Concrete evaluation of `arange` from `-1` to `1` at step `1`. -/
theorem arange_neg_one_one : arange (-1 : ℝ) 1 1 = [-1, 0] := by
  norm_num [arange]
  rw [show Int.toNat 2 = 2 from rfl]
  simp [List.range_succ]

/-- Claim C6: with limits `[-1,1]` on all three axes and eight desired
voxels, `form_initial_voxels` returns edge length `1` (the cube root of
`8/8`) and its grid contains the voxel `(-1,-1,-1)`, the lattice origin at
each axis minimum. -/
theorem formInitialVoxels_concrete_claim :
    (formInitialVoxels (-1, 1) (-1, 1) (-1, 1) 8).2 = 1 ∧
      (⟨-1, -1, -1⟩ : Voxel ℝ) ∈ (formInitialVoxels (-1, 1) (-1, 1) (-1, 1) 8).1 := by
  constructor
  · rw [formInitialVoxels_snd]
    norm_num [cbrt, Real.one_rpow]
  · rw [formInitialVoxels_fst]
    have hc : cbrt ((((-1 : ℝ), (1 : ℝ)).2 - ((-1 : ℝ), (1 : ℝ)).1) *
        (((-1 : ℝ), (1 : ℝ)).2 - ((-1 : ℝ), (1 : ℝ)).1) *
        (((-1 : ℝ), (1 : ℝ)).2 - ((-1 : ℝ), (1 : ℝ)).1) / 8) = 1 := by
      norm_num [cbrt, Real.one_rpow]
    rw [hc, gridOf, arange_neg_one_one]
    simp [List.flatMap_cons]

/-- Claim C7: without the refinement pass, the x and y intervals returned by
`get_voxel_bounds` are the camera-position extents shrunk inward by one
quarter of their span on each side: `[xmin + (xmax-xmin)/4,
xmax - (xmax-xmin)/4]`, where `xmin`/`xmax` are the least and greatest
camera-position x coordinates, and likewise for y. -/
theorem getVoxelBounds_quarter_shrink_claim (c0 : Camera ℝ) (cs : List (Camera ℝ))
    (nv : ℝ) (xmin xmax ymin ymax : ℝ)
    (hx0 : xmin ∈ (c0 :: cs).map fun c => c.T 0)
    (hx1 : ∀ a ∈ (c0 :: cs).map fun c => c.T 0, xmin ≤ a)
    (hx2 : xmax ∈ (c0 :: cs).map fun c => c.T 0)
    (hx3 : ∀ a ∈ (c0 :: cs).map fun c => c.T 0, a ≤ xmax)
    (hy0 : ymin ∈ (c0 :: cs).map fun c => c.T 1)
    (hy1 : ∀ a ∈ (c0 :: cs).map fun c => c.T 1, ymin ≤ a)
    (hy2 : ymax ∈ (c0 :: cs).map fun c => c.T 1)
    (hy3 : ∀ a ∈ (c0 :: cs).map fun c => c.T 1, a ≤ ymax) :
    ∃ zl, getVoxelBounds (c0 :: cs) false nv =
      some ((xmin + (xmax - xmin) / 4, xmax - (xmax - xmin) / 4),
            (ymin + (ymax - ymin) / 4, ymax - (ymax - ymin) / 4), zl) := by
  have hxlo : (cs.map fun c => c.T 0).foldl min (c0.T 0) = xmin := by
    refine foldl_min_eq _ _ _ (hx1 _ (by simp)) ?_ ?_
    · intro y hy
      exact hx1 y (by rw [List.map_cons]; exact List.mem_cons_of_mem _ hy)
    · rw [List.map_cons] at hx0
      exact List.mem_cons.mp hx0
  have hxhi : (cs.map fun c => c.T 0).foldl max (c0.T 0) = xmax := by
    refine foldl_max_eq _ _ _ (hx3 _ (by simp)) ?_ ?_
    · intro y hy
      exact hx3 y (by rw [List.map_cons]; exact List.mem_cons_of_mem _ hy)
    · rw [List.map_cons] at hx2
      exact List.mem_cons.mp hx2
  have hylo : (cs.map fun c => c.T 1).foldl min (c0.T 1) = ymin := by
    refine foldl_min_eq _ _ _ (hy1 _ (by simp)) ?_ ?_
    · intro y hy
      exact hy1 y (by rw [List.map_cons]; exact List.mem_cons_of_mem _ hy)
    · rw [List.map_cons] at hy0
      exact List.mem_cons.mp hy0
  have hyhi : (cs.map fun c => c.T 1).foldl max (c0.T 1) = ymax := by
    refine foldl_max_eq _ _ _ (hy3 _ (by simp)) ?_ ?_
    · intro y hy
      exact hy3 y (by rw [List.map_cons]; exact List.mem_cons_of_mem _ hy)
    · rw [List.map_cons] at hy2
      exact List.mem_cons.mp hy2
  simp only [getVoxelBounds, diff]
  rw [hxlo, hxhi, hylo, hyhi]
  exact ⟨_, congrArg some (Prod.ext (Prod.ext (by ring) (by ring))
    (Prod.ext (Prod.ext (by ring) (by ring)) rfl))⟩

/-- Witness for C7 at a concrete input: a single camera positioned at
`(1, 2, 3)` yields degenerate x and y extents `[1,1]` and `[2,2]`, returned
shrunk by a quarter of their (zero) span. -/
theorem getVoxelBounds_quarter_shrink_claim_witness :
    ∃ zl, getVoxelBounds [camPos] false 4000 =
      some ((1 + (1 - 1) / 4, 1 - (1 - 1) / 4),
            (2 + (2 - 2) / 4, 2 - (2 - 2) / 4), zl) :=
  getVoxelBounds_quarter_shrink_claim camPos [] 4000 1 1 2 2
    (by simp [camPos, finq30]) (by simp [camPos, finq30])
    (by simp [camPos, finq30]) (by simp [camPos, finq30])
    (by simp [camPos, finq31]) (by simp [camPos, finq31])
    (by simp [camPos, finq31]) (by simp [camPos, finq31])

/-- Claim C4, evaluated at a non-degenerate failing input: two cameras at
positions `(0,0,0)` and `(2,2,2)` with all-zero silhouettes, refinement on,
two desired voxels.  The four conjuncts trace the failure path through the
source: (1) the heuristic bounds are x and y in `[1/2, 3/2]` and z in
`[0, 2]` (witnessed by the non-refining call, whose returned limits are the
very ones the refinement branch feeds to `form_initial_voxels`); (2) on
those bounds the coarse grid is the two-voxel lattice `(1/2,1/2,0)`,
`(1/2,1/2,1)` with edge length `1` — the grid step is nonzero and the grid
nonempty, so `np.arange` genuinely runs and the failure does not come from
a degenerate grid; (3) carving that grid against both cameras eliminates
every voxel; hence (4) `get_voxel_bounds` produces no bounds.  The
embedding returns `none` where the source raises; at this input the source
raises a generic indexing error from slicing the empty survivor array
(`voxels[:,0]`), not a designed `EmptyResultError`: no explicit empty-set
handling exists anywhere in the code. -/
theorem getVoxelBounds_empty_survivors_claim :
    getVoxelBounds [camBugA, camBugB] false 2 =
        some ((1/2, 3/2), (1/2, 3/2), (0, 2)) ∧
      formInitialVoxels (1/2, 3/2) (1/2, 3/2) (0, 2) 2 =
        ([⟨1/2, 1/2, 0⟩, ⟨1/2, 1/2, 1⟩], 1) ∧
      carve (carve [(⟨1/2, 1/2, 0⟩ : Voxel ℝ), ⟨1/2, 1/2, 1⟩] camBugA) camBugB = [] ∧
      getVoxelBounds [camBugA, camBugB] true 2 = none := by
  have ha1 : arange (1/2 : ℝ) (3/2) 1 = [1/2] := by
    norm_num [arange]
    simp [List.range_succ]
  have ha2 : arange (0 : ℝ) 2 1 = [0, 1] := by
    norm_num [arange]
    rw [show Int.toNat 2 = 2 from rfl]
    simp [List.range_succ]
  have hc : cbrt ((((1 : ℝ)/2, (3 : ℝ)/2).2 - ((1 : ℝ)/2, (3 : ℝ)/2).1) *
      (((1 : ℝ)/2, (3 : ℝ)/2).2 - ((1 : ℝ)/2, (3 : ℝ)/2).1) *
      (((0 : ℝ), (2 : ℝ)).2 - ((0 : ℝ), (2 : ℝ)).1) / 2) = 1 := by
    norm_num [cbrt, Real.one_rpow]
  refine ⟨?_, ?_, ?_, ?_⟩
  · simp only [getVoxelBounds, diff, List.map_cons, List.map_nil,
      List.foldl_cons, List.foldl_nil, camBugA, camBugB]
    norm_num [min_def, max_def]
  · refine Prod.ext ?_ ?_
    · rw [formInitialVoxels_fst, hc, gridOf, ha1, ha2]
      simp [List.flatMap_cons]
    · rw [formInitialVoxels_snd, hc]
  · rw [carve_eq_nil_of_sil_nonpos camBugA (fun r k => le_refl 0),
      carve_eq_nil_of_sil_nonpos camBugB (fun r k => le_refl 0)]
  · have hcA : ∀ V : List (Voxel ℝ), carve V camBugA = [] := fun V =>
      carve_eq_nil_of_sil_nonpos camBugA (fun r k => le_refl 0) V
    have hcB : ∀ V : List (Voxel ℝ), carve V camBugB = [] := fun V =>
      carve_eq_nil_of_sil_nonpos camBugB (fun r k => le_refl 0) V
    simp only [getVoxelBounds]
    rw [List.foldl_cons, List.foldl_cons, List.foldl_nil, hcA, hcB]
    simp
